import Mathlib

/-!
Shallow embedding of src/05-objects-tasks.js (core-js-101): the Rectangle
factory, the JSON helpers getJSON and fromJSON, and the css selector builder
MySuperBaseElementSelector together with its cssSelectorBuilder facade.

JavaScript semantics that matter here are modelled explicitly:

* The builder keeps an order array with MIXED content: element pushes the
  number 1, id pushes the number 2, class and pseudoClass push a live
  reference to the corresponding accumulator array, attr and pseudoElement
  push the decorated string just stored.  The order checks compare
  order[0] > k, which in JavaScript coerces the first entry with ToNumber
  (an array is first joined with commas).  OrderEntry below reproduces the
  four shapes, and jsToNumber models ToNumber on strings; NaN comparisons
  are false.  Exact rational values are represented as mantissa times a
  power of ten over Int, so every comparison is exact and computable.
* Truthiness tests on strings (if (this.builder.element)) are nonemptiness
  tests; arrays are always truthy.
* JavaScript numbers in Rectangle and in JSON values are modelled as exact
  integers (Int); floating point rounding is outside the model.
-/

/-! ## JavaScript ToNumber on strings (used by the order gate) -/

/-- Whitespace stripped by the JavaScript ToNumber conversion (ASCII part,
plus NBSP). -/
def isWsChar (c : Char) : Bool :=
  c = ' ' || c = '\t' || c = '\n' || c = '\r' || c = '\x0b' || c = '\x0c' || c = '\xa0'

/-- Drop trailing whitespace. -/
def trimEnd (l : List Char) : List Char :=
  (l.reverse.dropWhile isWsChar).reverse

/-- Strip whitespace from both ends, as ToNumber does. -/
def trimWs (l : List Char) : List Char :=
  trimEnd (l.dropWhile isWsChar)

/-- Powers of ten over Int, by structural recursion so the kernel reduces it. -/
def tenPow : Nat → Int
| 0 => 1
| n + 1 => 10 * tenPow n

/-- An exact decimal value: mantissa times ten to the exponent. -/
structure DecNum where
  m : Int
  e : Int
deriving Repr, DecidableEq

/-- Result of a JavaScript ToNumber conversion (doubles modelled exactly). -/
inductive JSNum where
| nan
| posInf
| negInf
| fin (d : DecNum)
deriving Repr, DecidableEq

def jsNeg : JSNum → JSNum
| .nan => .nan
| .posInf => .negInf
| .negInf => .posInf
| .fin d => .fin ⟨-d.m, d.e⟩

/-- Value of a list of decimal digit characters, most significant first. -/
def digitsToNat (l : List Char) : Nat :=
  l.foldl (fun a c => a * 10 + (c.toNat - 48)) 0

/-- Value of one hexadecimal digit character. -/
def hexDigitVal (c : Char) : Option Nat :=
  if c.isDigit then some (c.toNat - 48)
  else if 'a' ≤ c && c ≤ 'f' then some (c.toNat - 87)
  else if 'A' ≤ c && c ≤ 'F' then some (c.toNat - 55)
  else none

/-- Digits of a non-decimal radix literal (2, 8 or 16), most significant
first; none on an invalid digit. -/
def radixDigits (b : Nat) (l : List Char) : Option Nat :=
  l.foldl
    (fun acc c =>
      acc.bind fun a =>
        (hexDigitVal c).bind fun d => if d < b then some (a * b + d) else none)
    (some 0)

/-- A 0x / 0o / 0b integer literal body. -/
def radixNum (b : Nat) (l : List Char) : JSNum :=
  if l.isEmpty then .nan
  else
    match radixDigits b l with
    | some n => .fin ⟨(n : Int), 0⟩
    | none => .nan

/-- The exponent suffix of a decimal literal; the whole list must be the
suffix.  Empty means exponent zero; anything not of the shape e[+-]digits
is a failure. -/
def expSuffix : List Char → Option Int
| [] => some 0
| c :: r =>
  if c = 'e' || c = 'E' then
    match r with
    | '+' :: r2 =>
      if r2 ≠ [] && r2.all Char.isDigit then some ((digitsToNat r2 : Int)) else none
    | '-' :: r2 =>
      if r2 ≠ [] && r2.all Char.isDigit then some (-(digitsToNat r2 : Int)) else none
    | _ =>
      if r ≠ [] && r.all Char.isDigit then some ((digitsToNat r : Int)) else none
  else none

/-- An unsigned decimal literal: digits, optionally a dot and more digits,
optionally an exponent; the whole list must be consumed. -/
def decLit (l : List Char) : JSNum :=
  let ds := l.takeWhile Char.isDigit
  let r1 := l.dropWhile Char.isDigit
  match r1 with
  | '.' :: r2 =>
    let fs := r2.takeWhile Char.isDigit
    let r3 := r2.dropWhile Char.isDigit
    if ds.isEmpty && fs.isEmpty then .nan
    else
      match expSuffix r3 with
      | some e => .fin ⟨(digitsToNat ds : Int) * tenPow fs.length + (digitsToNat fs : Int),
                        e - (fs.length : Int)⟩
      | none => .nan
  | _ =>
    if ds.isEmpty then .nan
    else
      match expSuffix r1 with
      | some e => .fin ⟨(digitsToNat ds : Int), e⟩
      | none => .nan

def isInfinityChars (l : List Char) : Bool :=
  l = ['I', 'n', 'f', 'i', 'n', 'i', 't', 'y']

/-- Does the list start with 0 followed by one of the two radix tag letters? -/
def radixTag (l : List Char) (a b : Char) : Bool :=
  match l with
  | '0' :: c :: _ => c = a || c = b
  | _ => false

/-- Body after an explicit sign: only Infinity or a decimal literal
(signed radix literals are NaN in JavaScript). -/
def signedTail (l : List Char) : JSNum :=
  if isInfinityChars l then .posInf else decLit l

/-- Unsigned body: Infinity, a radix literal, or a decimal literal. -/
def unsignedNum (l : List Char) : JSNum :=
  if isInfinityChars l then .posInf
  else if radixTag l 'x' 'X' then radixNum 16 (l.drop 2)
  else if radixTag l 'o' 'O' then radixNum 8 (l.drop 2)
  else if radixTag l 'b' 'B' then radixNum 2 (l.drop 2)
  else decLit l

/-- ToNumber on an already trimmed character list. -/
def jsToNumberChars : List Char → JSNum
| [] => .fin ⟨0, 0⟩
| c :: r =>
  if c = '-' then jsNeg (signedTail r)
  else if c = '+' then signedTail r
  else unsignedNum (c :: r)

/-- JavaScript ToNumber on a string. -/
def jsToNumber (s : String) : JSNum :=
  jsToNumberChars (trimWs s.data)

/-- Is the exact value d.m * 10 ^ d.e strictly greater than k?  Stated over
Int so the kernel can evaluate it. -/
def decGtNat (d : DecNum) (k : Nat) : Bool :=
  if 0 ≤ d.e then decide ((k : Int) < d.m * tenPow d.e.toNat)
  else decide ((k : Int) * tenPow (-d.e).toNat < d.m)

/-- The JavaScript comparison n > k for a ToNumber result n and a small
integer threshold k; NaN compares false. -/
def jsGtNat : JSNum → Nat → Bool
| .nan, _ => false
| .posInf, _ => true
| .negInf, _ => false
| .fin d, k => decGtNat d k

/-! ## The selector builder -/

/-- One entry of the order array.  element pushes the number 1, id the
number 2, class and pseudoClass push a live reference to the respective
accumulator array, attr and pseudoElement push the decorated string. -/
inductive OrderEntry where
| num (n : Nat)
| str (s : String)
| classRef
| pseudoRef
deriving Repr, DecidableEq

/-- The this.builder record of MySuperBaseElementSelector. -/
structure BuilderFields where
  element : String := ""
  id : String := ""
  «class» : List String := []
  attr : String := ""
  pseudoClass : List String := []
  pseudoElement : String := ""
  combiner : List String := []
deriving Repr, DecidableEq

/-- The selector class: the builder record plus the order array. -/
structure MySuperBaseElementSelector where
  builder : BuilderFields := {}
  order : List OrderEntry := []
deriving Repr, DecidableEq

/-- Array.prototype.join with the given separator. -/
def joinSep (sep : String) : List String → String
| [] => ""
| [s] => s
| s :: rest => s ++ sep ++ joinSep sep rest

namespace MySuperBaseElementSelector

/-- The coerced comparison order[0] > k; a live array reference is joined
with commas from the current state of the accumulator. -/
def entryGt (st : MySuperBaseElementSelector) (e : OrderEntry) (k : Nat) : Bool :=
  match e with
  | .num n => decide (k < n)
  | .str s => jsGtNat (jsToNumber s) k
  | .classRef => jsGtNat (jsToNumber (joinSep "," st.builder.«class»)) k
  | .pseudoRef => jsGtNat (jsToNumber (joinSep "," st.builder.pseudoClass)) k

/-- this.order.length > 0 && this.order[0] > k. -/
def firstGt (st : MySuperBaseElementSelector) (k : Nat) : Bool :=
  match st.order with
  | [] => false
  | e :: _ => entryGt st e k

def element (v : String) (st : MySuperBaseElementSelector) :
    Except String MySuperBaseElementSelector :=
  if st.builder.element ≠ "" then .error "Element value should be unique"
  else if st.order.length > 0 then .error "Wrong order"
  else .ok { st with builder := { st.builder with element := v },
                     order := st.order ++ [.num 1] }

def id (v : String) (st : MySuperBaseElementSelector) :
    Except String MySuperBaseElementSelector :=
  if st.builder.id ≠ "" then .error "Id value should be unique"
  else if firstGt st 2 then .error "Wrong order"
  else .ok { st with builder := { st.builder with id := "#" ++ v },
                     order := st.order ++ [.num 2] }

def «class» (v : String) (st : MySuperBaseElementSelector) :
    Except String MySuperBaseElementSelector :=
  if firstGt st 3 then .error "Wrong order"
  else .ok { st with builder := { st.builder with «class» := st.builder.«class» ++ ["." ++ v] },
                     order := st.order ++ [.classRef] }

def attr (v : String) (st : MySuperBaseElementSelector) :
    Except String MySuperBaseElementSelector :=
  if firstGt st 4 then .error "Wrong order"
  else .ok { st with builder := { st.builder with attr := "[" ++ v ++ "]" },
                     order := st.order ++ [.str ("[" ++ v ++ "]")] }

def pseudoClass (v : String) (st : MySuperBaseElementSelector) :
    Except String MySuperBaseElementSelector :=
  if firstGt st 5 then .error "Wrong order"
  else .ok { st with builder := { st.builder with pseudoClass := st.builder.pseudoClass ++ [":" ++ v] },
                     order := st.order ++ [.pseudoRef] }

def pseudoElement (v : String) (st : MySuperBaseElementSelector) :
    Except String MySuperBaseElementSelector :=
  if st.builder.pseudoElement ≠ "" then .error "PseudoElement value should be unique"
  else .ok { st with builder := { st.builder with pseudoElement := "::" ++ v },
                     order := st.order ++ [.str ("::" ++ v)] }

/-- stringify: a combined selector joins its captured parts with single
spaces; otherwise the decorated parts are concatenated in field order,
truthy (nonempty string or any array) parts only. -/
def stringify (st : MySuperBaseElementSelector) : String :=
  if st.builder.combiner.length > 0 then
    joinSep " " st.builder.combiner
  else
    let s0 := ""
    let s1 := if st.builder.element ≠ "" then s0 ++ st.builder.element else s0
    let s2 := if st.builder.id ≠ "" then s1 ++ st.builder.id else s1
    let s3 := s2 ++ joinSep "" st.builder.«class»
    let s4 := if st.builder.attr ≠ "" then s3 ++ st.builder.attr else s3
    let s5 := s4 ++ joinSep "" st.builder.pseudoClass
    let s6 := if st.builder.pseudoElement ≠ "" then s5 ++ st.builder.pseudoElement else s5
    s6 ++ joinSep "" st.builder.combiner

/-- combine captures the two renderings and the combinator in the combiner
array of this selector. -/
def combine (st : MySuperBaseElementSelector) (s1 : MySuperBaseElementSelector)
    (comb : String) (s2 : MySuperBaseElementSelector) : MySuperBaseElementSelector :=
  { st with builder :=
      { st.builder with combiner := st.builder.combiner ++ [stringify s1, comb, stringify s2] } }

end MySuperBaseElementSelector

/-! ## The cssSelectorBuilder facade: every entry point starts from a fresh
selector instance. -/

namespace cssSelectorBuilder

def element (v : String) : Except String MySuperBaseElementSelector :=
  MySuperBaseElementSelector.element v {}

def id (v : String) : Except String MySuperBaseElementSelector :=
  MySuperBaseElementSelector.id v {}

def «class» (v : String) : Except String MySuperBaseElementSelector :=
  MySuperBaseElementSelector.«class» v {}

def attr (v : String) : Except String MySuperBaseElementSelector :=
  MySuperBaseElementSelector.attr v {}

def pseudoClass (v : String) : Except String MySuperBaseElementSelector :=
  MySuperBaseElementSelector.pseudoClass v {}

def pseudoElement (v : String) : Except String MySuperBaseElementSelector :=
  MySuperBaseElementSelector.pseudoElement v {}

def combine (s1 : MySuperBaseElementSelector) (comb : String)
    (s2 : MySuperBaseElementSelector) : MySuperBaseElementSelector :=
  MySuperBaseElementSelector.combine {} s1 comb s2

end cssSelectorBuilder

/-- The selector states reachable through the public interface: a fresh
instance, a successful method call on a reachable state, or a combine. -/
inductive Reachable : MySuperBaseElementSelector → Prop where
| fresh : Reachable {}
| element (v st st') : Reachable st →
    MySuperBaseElementSelector.element v st = .ok st' → Reachable st'
| id (v st st') : Reachable st →
    MySuperBaseElementSelector.id v st = .ok st' → Reachable st'
| cls (v st st') : Reachable st →
    MySuperBaseElementSelector.«class» v st = .ok st' → Reachable st'
| attr (v st st') : Reachable st →
    MySuperBaseElementSelector.attr v st = .ok st' → Reachable st'
| pseudoClass (v st st') : Reachable st →
    MySuperBaseElementSelector.pseudoClass v st = .ok st' → Reachable st'
| pseudoElement (v st st') : Reachable st →
    MySuperBaseElementSelector.pseudoElement v st = .ok st' → Reachable st'
| combine (st s1 comb s2) : Reachable st →
    Reachable (MySuperBaseElementSelector.combine st s1 comb s2)

/-- Shape of an order entry in any reachable state: element and id push the
numbers 1 and 2, attr and pseudoElement push a string starting with an open
bracket or a colon, class and pseudoClass push an array reference. -/
def entryOK : OrderEntry → Prop
| .num n => n = 1 ∨ n = 2
| .str s => (∃ t, s.data = '[' :: t) ∨ (∃ t, s.data = ':' :: t)
| .classRef => True
| .pseudoRef => True

/-- Invariant of reachable selector states: every order entry is well
shaped, every stored class starts with a dot, every stored pseudo-class
starts with a colon. -/
def InvS (st : MySuperBaseElementSelector) : Prop :=
  (∀ e ∈ st.order, entryOK e) ∧
  (∀ s ∈ st.builder.«class», ∃ t, s.data = '.' :: t) ∧
  (∀ s ∈ st.builder.pseudoClass, ∃ t, s.data = ':' :: t)

/-! ## Call traces: used to state that stringify is a pure observation. -/

/-- One public call on a selector chain. -/
inductive Call where
| callElement (v : String)
| callId (v : String)
| callClass (v : String)
| callAttr (v : String)
| callPseudoClass (v : String)
| callPseudoElement (v : String)
| callStringify
deriving Repr, DecidableEq

/-- Run one call: part additions may fail, stringify observes the state and
produces an output string. -/
def stepCall (c : Call) (st : MySuperBaseElementSelector) :
    Except String (MySuperBaseElementSelector × Option String) :=
  match c with
  | .callElement v => (MySuperBaseElementSelector.element v st).map fun st' => (st', none)
  | .callId v => (MySuperBaseElementSelector.id v st).map fun st' => (st', none)
  | .callClass v => (MySuperBaseElementSelector.«class» v st).map fun st' => (st', none)
  | .callAttr v => (MySuperBaseElementSelector.attr v st).map fun st' => (st', none)
  | .callPseudoClass v => (MySuperBaseElementSelector.pseudoClass v st).map fun st' => (st', none)
  | .callPseudoElement v => (MySuperBaseElementSelector.pseudoElement v st).map fun st' => (st', none)
  | .callStringify => .ok (st, some (MySuperBaseElementSelector.stringify st))

/-- Run a list of calls, collecting the stringify outputs in order. -/
def runCalls : List Call → MySuperBaseElementSelector →
    Except String (MySuperBaseElementSelector × List String)
| [], st => .ok (st, [])
| c :: cs, st =>
  (stepCall c st).bind fun p =>
    (runCalls cs p.1).map fun q => (q.1, p.2.toList ++ q.2)

/-! ## The Rectangle factory -/

/-- The object literal returned by Rectangle: two data properties and the
getArea method (a closure over the two constructor arguments). -/
structure RectangleObj where
  width : Int
  height : Int
  getArea : Unit → Int

/-- function Rectangle(width, height). -/
def Rectangle (width height : Int) : RectangleObj :=
  { width := width, height := height, getArea := fun _ => width * height }

/-! ## JSON: getJSON is JSON.stringify, fromJSON is JSON.parse plus
Object.setPrototypeOf.  JSON values are modelled with exact integer
numerals. -/

/-- A JSON-representable value. -/
inductive JVal where
| jnull
| jbool (b : Bool)
| jnum (n : Int)
| jstr (s : String)
| jarr (items : List JVal)
| jobj (pairs : List (String × JVal))
deriving Repr

/-- The decimal digit characters of n, most significant first. -/
def natChars (n : Nat) : List Char :=
  if n = 0 then ['0']
  else ((Nat.digits 10 n).map fun d => Char.ofNat (48 + d)).reverse

/-- The characters JSON.stringify produces for an integer. -/
def intChars (n : Int) : List Char :=
  if n < 0 then '-' :: natChars n.natAbs else natChars n.natAbs

/-- Lowercase hexadecimal digit character. -/
def hexDigitChar (n : Nat) : Char :=
  if n < 10 then Char.ofNat (48 + n) else Char.ofNat (87 + n)

/-- JSON.stringify escaping of one string character: quote and backslash get
a backslash, the five short control escapes are used where they exist, the
remaining control characters become a u-escape. -/
def escChar (c : Char) : List Char :=
  if c = '"' then ['\\', '"']
  else if c = '\\' then ['\\', '\\']
  else if c = '\x08' then ['\\', 'b']
  else if c = '\t' then ['\\', 't']
  else if c = '\n' then ['\\', 'n']
  else if c = '\x0c' then ['\\', 'f']
  else if c = '\r' then ['\\', 'r']
  else if c.toNat < 32 then
    ['\\', 'u', '0', '0', hexDigitChar (c.toNat / 16), hexDigitChar (c.toNat % 16)]
  else [c]

/-- Escape a whole string body. -/
def escBody : List Char → List Char
| [] => []
| c :: r => escChar c ++ escBody r

/-- A JSON string literal with its quotes. -/
def strChars (s : String) : List Char :=
  '"' :: escBody s.data ++ ['"']

mutual

/-- The characters JSON.stringify produces for a value. -/
def jsonChars : JVal → List Char
| .jnull => ['n', 'u', 'l', 'l']
| .jbool true => ['t', 'r', 'u', 'e']
| .jbool false => ['f', 'a', 'l', 's', 'e']
| .jnum n => intChars n
| .jstr s => strChars s
| .jarr items => '[' :: itemsChars items ++ [']']
| .jobj pairs => '\x7b' :: pairsChars pairs ++ ['\x7d']

/-- Array items, comma separated. -/
def itemsChars : List JVal → List Char
| [] => []
| [v] => jsonChars v
| v :: rest => jsonChars v ++ ',' :: itemsChars rest

/-- Object members, comma separated, each a quoted key, a colon and a value. -/
def pairsChars : List (String × JVal) → List Char
| [] => []
| [(k, v)] => strChars k ++ ':' :: jsonChars v
| (k, v) :: rest => strChars k ++ ':' :: jsonChars v ++ ',' :: pairsChars rest

end

def jsonStringify (v : JVal) : String := String.mk (jsonChars v)

/-- getJSON returns the JSON representation of the value. -/
def getJSON (v : JVal) : String := jsonStringify v

/-! ### A JSON parser (the model of JSON.parse).  Recursion is on an explicit
fuel counter for the nesting, so every function is total. -/

/-- JSON whitespace. -/
def jsonWs (c : Char) : Bool :=
  c = ' ' || c = '\t' || c = '\n' || c = '\r'

def wsDrop (l : List Char) : List Char := l.dropWhile jsonWs

/-- Four hexadecimal digits to a code point. -/
def hexQuad (a b c d : Char) : Option Nat :=
  (hexDigitVal a).bind fun va =>
    (hexDigitVal b).bind fun vb =>
      (hexDigitVal c).bind fun vc =>
        (hexDigitVal d).map fun vd => ((va * 16 + vb) * 16 + vc) * 16 + vd

/-- The character denoted by a one-letter escape. -/
def escValue (e : Char) : Option Char :=
  if e = '"' then some '"'
  else if e = '\\' then some '\\'
  else if e = '/' then some '/'
  else if e = 'b' then some '\x08'
  else if e = 'f' then some '\x0c'
  else if e = 'n' then some '\n'
  else if e = 'r' then some '\r'
  else if e = 't' then some '\t'
  else none

/-- Parse a string body after the opening quote, up to and including the
closing quote. -/
def parseStrBody : List Char → Option (List Char × List Char)
| [] => none
| '"' :: r => some ([], r)
| '\\' :: 'u' :: h1 :: h2 :: h3 :: h4 :: r =>
  match hexQuad h1 h2 h3 h4 with
  | some n => (parseStrBody r).map fun p => (Char.ofNat n :: p.1, p.2)
  | none => none
| '\\' :: e :: r =>
  match escValue e with
  | some c => (parseStrBody r).map fun p => (c :: p.1, p.2)
  | none => none
| c :: r => (parseStrBody r).map fun p => (c :: p.1, p.2)

/-- Parse a run of decimal digits. -/
def parseNatLit (l : List Char) : Option (Nat × List Char) :=
  let ds := l.takeWhile Char.isDigit
  if ds.isEmpty then none else some (digitsToNat ds, l.dropWhile Char.isDigit)

/-- Parse an integer numeral with an optional leading minus. -/
def parseIntLit (l : List Char) : Option (Int × List Char) :=
  if l.head? = some '-' then (parseNatLit l.tail).map fun p => (-(p.1 : Int), p.2)
  else (parseNatLit l).map fun p => ((p.1 : Int), p.2)

/-- Strip an expected literal from the input. -/
def dropLit : List Char → List Char → Option (List Char)
| [], l => some l
| _ :: _, [] => none
| p :: ps, c :: cs => if c = p then dropLit ps cs else none

mutual

/-- Parse one JSON value (fuelled on the nesting depth): strip whitespace,
then dispatch on the first character. -/
def parseVal : Nat → List Char → Option (JVal × List Char)
| 0, _ => none
| fuel + 1, l => parseValCore fuel (wsDrop l)

/-- Dispatch on the first character of the whitespace-stripped input. -/
def parseValCore : Nat → List Char → Option (JVal × List Char)
| _, [] => none
| fuel, c :: r =>
  if c = 'n' then (dropLit ['u', 'l', 'l'] r).map fun r' => (.jnull, r')
  else if c = 't' then (dropLit ['r', 'u', 'e'] r).map fun r' => (.jbool true, r')
  else if c = 'f' then (dropLit ['a', 'l', 's', 'e'] r).map fun r' => (.jbool false, r')
  else if c = '"' then (parseStrBody r).map fun p => (.jstr (String.mk p.1), p.2)
  else if c = '[' then
    if (wsDrop r).head? = some ']' then some (.jarr [], (wsDrop r).tail)
    else (parseItems fuel (wsDrop r)).map fun p => (.jarr p.1, p.2)
  else if c = '\x7b' then
    if (wsDrop r).head? = some '\x7d' then some (.jobj [], (wsDrop r).tail)
    else (parsePairs fuel (wsDrop r)).map fun p => (.jobj p.1, p.2)
  else if c = '-' || c.isDigit then
    (parseIntLit (c :: r)).map fun p => (.jnum p.1, p.2)
  else none

/-- Parse the items of a nonempty array, up to and including the closing
bracket. -/
def parseItems : Nat → List Char → Option (List JVal × List Char)
| 0, _ => none
| fuel + 1, l =>
  (parseVal fuel l).bind fun p =>
    if (wsDrop p.2).head? = some ',' then
      (parseItems fuel (wsDrop p.2).tail).map fun q => (p.1 :: q.1, q.2)
    else if (wsDrop p.2).head? = some ']' then some ([p.1], (wsDrop p.2).tail)
    else none

/-- Parse the members of a nonempty object, up to and including the closing
brace. -/
def parsePairs : Nat → List Char → Option (List (String × JVal) × List Char)
| 0, _ => none
| fuel + 1, l =>
  if (wsDrop l).head? = some '"' then
    (parseStrBody (wsDrop l).tail).bind fun pk =>
      if (wsDrop pk.2).head? = some ':' then
        (parseVal fuel (wsDrop pk.2).tail).bind fun pv =>
          if (wsDrop pv.2).head? = some ',' then
            (parsePairs fuel (wsDrop pv.2).tail).map fun q =>
              ((String.mk pk.1, pv.1) :: q.1, q.2)
          else if (wsDrop pv.2).head? = some '\x7d' then
            some ([(String.mk pk.1, pv.1)], (wsDrop pv.2).tail)
          else none
      else none
  else none

end

/-- The characters following the value of one object member: either the
closing brace, or a comma and the remaining members. -/
def pairsTail (ps : List (String × JVal)) (rest : List Char) : List Char :=
  match ps with
  | [] => '\x7d' :: rest
  | _ :: _ => ',' :: (pairsChars ps ++ '\x7d' :: rest)

/-- JSON.parse: parse one value and require only whitespace after it. -/
def jsonParse (s : String) : Option JVal :=
  match parseVal (s.length + 1) s.data with
  | some (v, rest) => if (wsDrop rest).isEmpty then some v else none
  | none => none

/-! Fuel measure for the parser: one unit per JSON value node, one per
list step. -/
mutual

def jweight : JVal → Nat
| .jnull => 1
| .jbool _ => 1
| .jnum _ => 1
| .jstr _ => 1
| .jarr items => itemsWeight items + 1
| .jobj pairs => pairsWeight pairs + 1

def itemsWeight : List JVal → Nat
| [] => 0
| v :: rest => jweight v + 1 + itemsWeight rest

def pairsWeight : List (String × JVal) → Nat
| [] => 0
| (_, v) :: rest => jweight v + 1 + pairsWeight rest

end

/-- A parsed object with a prototype installed: the own enumerable
properties and the delegation target (itself a property list). -/
structure JsObject where
  own : List (String × JVal)
  proto : List (String × JVal)

/-- fromJSON: JSON.parse followed by Object.setPrototypeOf.  The claims
concern plain data objects, so only an object literal result is modelled. -/
def fromJSON (proto : List (String × JVal)) (text : String) : Option JsObject :=
  (jsonParse text).bind fun v =>
    match v with
    | .jobj pairs => some { own := pairs, proto := proto }
    | _ => none

/-- Property lookup: own properties first, then the prototype. -/
def getProp (o : JsObject) (k : String) : Option JVal :=
  match o.own.lookup k with
  | some v => some v
  | none => o.proto.lookup k

/-! ## General helper lemmas -/

theorem str_eq_of_data (s t : String) (h : s.data = t.data) : s = t := String.ext h

theorem str_empty_append (s : String) : "" ++ s = s := by
  apply str_eq_of_data; simp [String.data_append]

theorem ite_append_ne (acc s : String) : (if s ≠ "" then acc ++ s else acc) = acc ++ s := by
  by_cases h : s = ""
  · simp [h, String.append_empty]
  · simp [h]

theorem cons_append_ne_empty (s t : String) (h : s.data ≠ []) : s ++ t ≠ "" := by
  intro he
  have := congrArg String.data he
  simp [String.data_append] at this
  exact h this.1

/-- A selector that was never combined renders as the plain concatenation of
its decorated accumulators, in field order. -/
theorem stringify_simple (st : MySuperBaseElementSelector)
    (h : st.builder.combiner = []) :
    MySuperBaseElementSelector.stringify st =
      st.builder.element ++ st.builder.id ++ joinSep "" st.builder.«class» ++
        st.builder.attr ++ joinSep "" st.builder.pseudoClass ++ st.builder.pseudoElement := by
  unfold MySuperBaseElementSelector.stringify
  rw [h]
  simp only [List.length_nil, gt_iff_lt, lt_self_iff_false, if_false, ite_append_ne, joinSep,
    String.append_empty, str_empty_append]
  by_cases h2 : st.builder.element = "" <;> simp [h2]

/-- Rendering a combined selector: the two captured renderings around the
combinator, single spaces in between. -/
theorem stringify_combine (a b : MySuperBaseElementSelector) (c : String) :
    MySuperBaseElementSelector.stringify (cssSelectorBuilder.combine a c b) =
      MySuperBaseElementSelector.stringify a ++ " " ++ c ++ " " ++
        MySuperBaseElementSelector.stringify b := by
  apply str_eq_of_data
  simp [cssSelectorBuilder.combine, MySuperBaseElementSelector.combine,
    MySuperBaseElementSelector.stringify, joinSep, String.data_append]

/-! ## Claims C3, C4, C5, C6, C8, C9 and the counterexamples for C1, C2, C5 -/

/-- Claim C3 (confirmed): a non-combined builder stringifies to the
concatenation, in fixed category order, of exactly the non-empty decorated
parts, with the category punctuation already stored on each part; the
sample chain renders to the expected selector text. -/
theorem claim_C3 :
    (∀ st : MySuperBaseElementSelector, st.builder.combiner = [] →
       MySuperBaseElementSelector.stringify st =
         st.builder.element ++ st.builder.id ++ joinSep "" st.builder.«class» ++
           st.builder.attr ++ joinSep "" st.builder.pseudoClass ++ st.builder.pseudoElement) ∧
    (((((((cssSelectorBuilder.element "a").bind (MySuperBaseElementSelector.id "main")).bind
        (MySuperBaseElementSelector.«class» "container")).bind
        (MySuperBaseElementSelector.«class» "editable")).bind
        (MySuperBaseElementSelector.attr "href$=\".png\"")).bind
        (MySuperBaseElementSelector.pseudoClass "focus")).bind
        (MySuperBaseElementSelector.pseudoElement "before")).map
        MySuperBaseElementSelector.stringify =
      .ok "a#main.container.editable[href$=\".png\"]:focus::before" :=
  ⟨stringify_simple, by rfl⟩

theorem claim_C3_witness :
    (⟨⟨"a", "#m", [".c"], "[x]", [":f"], "::b", []⟩, []⟩ :
        MySuperBaseElementSelector).builder.combiner = [] ∧
    MySuperBaseElementSelector.stringify ⟨⟨"a", "#m", [".c"], "[x]", [":f"], "::b", []⟩, []⟩ =
      "a" ++ "#m" ++ joinSep "" [".c"] ++ "[x]" ++ joinSep "" [":f"] ++ "::b" :=
  ⟨rfl, claim_C3.1 ⟨⟨"a", "#m", [".c"], "[x]", [":f"], "::b", []⟩, []⟩ rfl⟩

/-- Claim C4 (confirmed): a combined selector renders as the left rendering,
a space, the combinator, a space and the right rendering; since the operands
are captured through their own stringify, nested combinations embed the
fully rendered inner combination, as on the sample input. -/
theorem claim_C4 :
    (∀ (a b : MySuperBaseElementSelector) (c : String),
       MySuperBaseElementSelector.stringify (cssSelectorBuilder.combine a c b) =
         MySuperBaseElementSelector.stringify a ++ " " ++ c ++ " " ++
           MySuperBaseElementSelector.stringify b) ∧
    (((cssSelectorBuilder.element "div").bind (MySuperBaseElementSelector.id "main")).bind
        fun a =>
          ((cssSelectorBuilder.element "table").bind
              (MySuperBaseElementSelector.id "data")).map fun b =>
            MySuperBaseElementSelector.stringify (cssSelectorBuilder.combine a "+" b)) =
      .ok "div#main + table#data" :=
  ⟨fun a b c => stringify_combine a b c, by rfl⟩

/-- Claim C5 counterexample: the first element call may store the EMPTY
string, which is falsy, so a second element call on that builder fails with
the wrong-order error, not the duplicate error; the claim quantified over
every pair of argument strings. -/
theorem claim_C5_counterexample :
    (cssSelectorBuilder.element "").bind (MySuperBaseElementSelector.element "div") =
        .error "Wrong order" ∧
    (cssSelectorBuilder.element "").bind (MySuperBaseElementSelector.element "div") ≠
        .error "Element value should be unique" := by
  refine ⟨rfl, fun h => ?_⟩
  rw [show (cssSelectorBuilder.element "").bind (MySuperBaseElementSelector.element "div") =
        Except.error "Wrong order" from rfl] at h
  exact absurd (Except.error.inj h) (by decide)

/-- Claim C5 (amended): duplicate detection tests the truthiness of the
stored string, so it fires whenever the stored element name is nonempty,
and always for id and pseudoElement (their stored values carry a nonempty
punctuation mark); calling element twice raises the duplicate error for
every pair of argument strings whose FIRST component is nonempty. -/
theorem claim_C5_amended :
    (∀ (st : MySuperBaseElementSelector) (v : String), st.builder.element ≠ "" →
       MySuperBaseElementSelector.element v st = .error "Element value should be unique") ∧
    (∀ (st : MySuperBaseElementSelector) (v : String), st.builder.id ≠ "" →
       MySuperBaseElementSelector.id v st = .error "Id value should be unique") ∧
    (∀ (st : MySuperBaseElementSelector) (v : String), st.builder.pseudoElement ≠ "" →
       MySuperBaseElementSelector.pseudoElement v st =
         .error "PseudoElement value should be unique") ∧
    (∀ u v : String, u ≠ "" →
       (cssSelectorBuilder.element u).bind (MySuperBaseElementSelector.element v) =
         .error "Element value should be unique") ∧
    (∀ u v : String,
       (cssSelectorBuilder.id u).bind (MySuperBaseElementSelector.id v) =
         .error "Id value should be unique") ∧
    (∀ u v : String,
       (cssSelectorBuilder.pseudoElement u).bind (MySuperBaseElementSelector.pseudoElement v) =
         .error "PseudoElement value should be unique") := by
  refine ⟨?_, ?_, ?_, ?_, ?_, ?_⟩
  · intro st v h; simp [MySuperBaseElementSelector.element, h]
  · intro st v h; simp [MySuperBaseElementSelector.id, h]
  · intro st v h; simp [MySuperBaseElementSelector.pseudoElement, h]
  · intro u v h
    simp [cssSelectorBuilder.element, MySuperBaseElementSelector.element, Except.bind, h]
  · intro u v
    have hu : ("#" ++ u) ≠ "" := cons_append_ne_empty "#" u (by simp)
    simp [cssSelectorBuilder.id, MySuperBaseElementSelector.id,
      MySuperBaseElementSelector.firstGt, Except.bind, hu]
  · intro u v
    have hu : ("::" ++ u) ≠ "" := cons_append_ne_empty "::" u (by simp)
    simp [cssSelectorBuilder.pseudoElement, MySuperBaseElementSelector.pseudoElement,
      Except.bind, hu]

theorem claim_C5_witness :
    MySuperBaseElementSelector.element "x" ⟨⟨"div", "", [], "", [], "", []⟩, [.num 1]⟩ =
        .error "Element value should be unique" ∧
    MySuperBaseElementSelector.id "x" ⟨⟨"", "#a", [], "", [], "", []⟩, [.num 2]⟩ =
        .error "Id value should be unique" ∧
    MySuperBaseElementSelector.pseudoElement "x" ⟨⟨"", "", [], "", [], "::b", []⟩, []⟩ =
        .error "PseudoElement value should be unique" ∧
    (cssSelectorBuilder.element "div").bind (MySuperBaseElementSelector.element "p") =
        .error "Element value should be unique" ∧
    (cssSelectorBuilder.id "a").bind (MySuperBaseElementSelector.id "b") =
        .error "Id value should be unique" ∧
    (cssSelectorBuilder.pseudoElement "a").bind (MySuperBaseElementSelector.pseudoElement "b") =
        .error "PseudoElement value should be unique" :=
  ⟨claim_C5_amended.1 _ "x" (by decide), claim_C5_amended.2.1 _ "x" (by decide),
   claim_C5_amended.2.2.1 _ "x" (by decide), claim_C5_amended.2.2.2.1 "div" "p" (by decide),
   claim_C5_amended.2.2.2.2.1 "a" "b", claim_C5_amended.2.2.2.2.2 "a" "b"⟩

/-- Claim C6 (confirmed): combine captures the RENDERINGS of its operands in
the combiner array of a fresh selector, so the result is determined by those
renderings alone: operands with equal renderings give equal combined
selectors, and later changes to an operand produce a different value without
touching the combined one (the embedding is state passing, so combine cannot
write to its operands). -/
theorem claim_C6 :
    (∀ (a b : MySuperBaseElementSelector) (c : String),
       (cssSelectorBuilder.combine a c b).builder.combiner =
         [MySuperBaseElementSelector.stringify a, c, MySuperBaseElementSelector.stringify b]) ∧
    (∀ (a a2 b b2 : MySuperBaseElementSelector) (c : String),
       MySuperBaseElementSelector.stringify a = MySuperBaseElementSelector.stringify a2 →
       MySuperBaseElementSelector.stringify b = MySuperBaseElementSelector.stringify b2 →
       cssSelectorBuilder.combine a c b = cssSelectorBuilder.combine a2 c b2) :=
  ⟨fun a b c => rfl,
   fun a a2 b b2 c h1 h2 => by
     simp [cssSelectorBuilder.combine, MySuperBaseElementSelector.combine, h1, h2]⟩

theorem claim_C6_witness :
    MySuperBaseElementSelector.stringify ⟨⟨"div", "", [], "", [], "", []⟩, [.num 1]⟩ =
      MySuperBaseElementSelector.stringify ⟨⟨"div", "", [], "", [], "", []⟩, []⟩ ∧
    cssSelectorBuilder.combine ⟨⟨"div", "", [], "", [], "", []⟩, [.num 1]⟩ "+"
        ⟨⟨"table", "", [], "", [], "", []⟩, []⟩ =
      cssSelectorBuilder.combine ⟨⟨"div", "", [], "", [], "", []⟩, []⟩ "+"
        ⟨⟨"table", "", [], "", [], "", []⟩, []⟩ :=
  ⟨rfl, claim_C6.2 _ _ _ _ "+" rfl rfl⟩

/-- Claim C8 (confirmed): Rectangle returns an object whose width and height
are the two arguments and whose getArea method returns their product
(numbers modelled as exact integers). -/
theorem claim_C8 :
    ∀ w h : Int, (Rectangle w h).width = w ∧ (Rectangle w h).height = h ∧
      (Rectangle w h).getArea () = w * h :=
  fun _ _ => ⟨rfl, rfl, rfl⟩

/-- Claim C9 (confirmed): uniqueness is detected by truthiness of the stored
string.  After element with the empty string a second element call fails
with the wrong-order error, while id and pseudoElement store the nonempty
marks # and :: even for the empty argument, so their repeated calls fail
with the duplicate error. -/
theorem claim_C9 :
    ∀ v : String,
      ((cssSelectorBuilder.element "").bind (MySuperBaseElementSelector.element v) =
        .error "Wrong order") ∧
      ((cssSelectorBuilder.id "").bind (MySuperBaseElementSelector.id v) =
        .error "Id value should be unique") ∧
      ((cssSelectorBuilder.pseudoElement "").bind (MySuperBaseElementSelector.pseudoElement v) =
        .error "PseudoElement value should be unique") :=
  fun _ => ⟨rfl, rfl, rfl⟩

/-- Claim C1 counterexample: a builder whose first-added part is a
pseudo-element does NOT make a later id call raise the order error: the
entry pushed first is the decorated string, its ToNumber value is NaN, the
coerced comparison is false and the id call succeeds. -/
theorem claim_C1_counterexample :
    (cssSelectorBuilder.pseudoElement "before").bind (MySuperBaseElementSelector.id "main") =
      .ok ⟨⟨"", "#main", [], "", [], "::before", []⟩, [.str "::before", .num 2]⟩ := by rfl

/-- Claim C2 counterexample: ranks 5 then 3 both succeed on one builder (a
pseudo-class part first, then a class part), so the sequence of successfully
added category ranks is not non-decreasing. -/
theorem claim_C2_counterexample :
    (cssSelectorBuilder.pseudoClass "focus").bind (MySuperBaseElementSelector.«class» "active") =
      .ok ⟨⟨"", "", [".active"], "", [":focus"], "", []⟩, [.pseudoRef, .classRef]⟩ := by rfl

/-! ## Claim C10: stringify is a pure observation -/

/-- Splitting a call trace: the suffix runs from the state the first part
reached, and the observed outputs concatenate. -/
theorem runCalls_append (cs ds : List Call) (st : MySuperBaseElementSelector) :
    runCalls (cs ++ ds) st =
      (runCalls cs st).bind fun p => (runCalls ds p.1).map fun q => (q.1, p.2 ++ q.2) := by
  induction cs generalizing st with
  | nil =>
    simp only [List.nil_append, runCalls, Except.bind]
    cases h : runCalls ds st with
    | error e => rfl
    | ok q => simp [Except.map]
  | cons c cs ih =>
    simp only [List.cons_append, runCalls, List.append_eq]
    cases h : stepCall c st with
    | error e => simp [Except.bind]
    | ok p =>
      simp only [Except.bind]
      rw [ih p.1]
      cases h2 : runCalls cs p.1 with
      | error e => rfl
      | ok q =>
        simp only [Except.map, Except.bind]
        cases h3 : runCalls ds q.1 with
        | error e => rfl
        | ok w => simp [List.append_assoc]

/-- Claim C10 (confirmed): appending a stringify call to any successful call
trace leaves the final builder state exactly as it was and only emits the
rendering of that state; appending two consecutive stringify calls emits the
same string twice.  So stringify writes no field and is repeatable. -/
theorem claim_C10 :
    ∀ (cs : List Call) (st st' : MySuperBaseElementSelector) (outs : List String),
      runCalls cs st = .ok (st', outs) →
      runCalls (cs ++ [Call.callStringify]) st =
        .ok (st', outs ++ [MySuperBaseElementSelector.stringify st']) ∧
      runCalls (cs ++ [Call.callStringify, Call.callStringify]) st =
        .ok (st', outs ++ [MySuperBaseElementSelector.stringify st',
                            MySuperBaseElementSelector.stringify st']) := by
  intro cs st st' outs h
  constructor
  · rw [runCalls_append, h]
    simp [runCalls, stepCall, Except.bind, Except.map]
  · rw [runCalls_append, h]
    simp [runCalls, stepCall, Except.bind, Except.map]

theorem claim_C10_witness :
    runCalls [Call.callElement "a"] {} =
      .ok (⟨⟨"a", "", [], "", [], "", []⟩, [.num 1]⟩, []) ∧
    runCalls ([Call.callElement "a"] ++ [Call.callStringify]) {} =
      .ok (⟨⟨"a", "", [], "", [], "", []⟩, [.num 1]⟩,
           [] ++ [MySuperBaseElementSelector.stringify ⟨⟨"a", "", [], "", [], "", []⟩, [.num 1]⟩]) :=
  ⟨rfl, (claim_C10 [Call.callElement "a"] {} ⟨⟨"a", "", [], "", [], "", []⟩, [.num 1]⟩ [] rfl).1⟩

theorem dropWhile_append_single (p : Char → Bool) (l : List Char) (c : Char)
    (h : p c = false) : (l ++ [c]).dropWhile p = l.dropWhile p ++ [c] := by
  induction l with
  | nil => simp [List.dropWhile, h]
  | cons a t ih =>
    by_cases ha : p a = true
    · simp [List.dropWhile_cons, ha, ih]
    · simp at ha; simp [List.dropWhile_cons, ha]

theorem trimWs_cons (c : Char) (l : List Char) (h : isWsChar c = false) :
    trimWs (c :: l) = c :: trimEnd l := by
  unfold trimWs trimEnd
  rw [List.dropWhile_cons]
  simp only [h, Bool.false_eq_true, if_false, List.reverse_cons,
    dropWhile_append_single isWsChar l.reverse c h, List.reverse_append]
  rfl

theorem decLit_nan (c : Char) (t : List Char) (hd : c.isDigit = false) (hdot : c ≠ '.') :
    decLit (c :: t) = .nan := by
  unfold decLit
  simp only [List.takeWhile_cons, List.dropWhile_cons, hd, Bool.false_eq_true, if_false]
  split
  · next r2 heq => exact absurd (List.cons.inj heq).1 hdot
  · simp

theorem radixTag_cons_false (c : Char) (t : List Char) (a b : Char) (h0 : c ≠ '0') :
    radixTag (c :: t) a b = false := by
  unfold radixTag
  split
  · next heq => exact absurd (List.cons.inj heq).1 h0
  · rfl

theorem unsignedNum_nan (c : Char) (t : List Char) (hI : c ≠ 'I') (h0 : c ≠ '0')
    (hd : c.isDigit = false) (hdot : c ≠ '.') : unsignedNum (c :: t) = .nan := by
  have h1 : isInfinityChars (c :: t) = false := by
    simp [isInfinityChars, hI]
  rw [unsignedNum, h1, radixTag_cons_false c t _ _ h0, radixTag_cons_false c t _ _ h0,
    radixTag_cons_false c t _ _ h0]
  simp [decLit_nan c t hd hdot]

theorem jsToNumberChars_nan (c : Char) (t : List Char) (hm : c ≠ '-') (hp : c ≠ '+')
    (hI : c ≠ 'I') (h0 : c ≠ '0') (hd : c.isDigit = false) (hdot : c ≠ '.') :
    jsToNumberChars (c :: t) = .nan := by
  rw [jsToNumberChars]
  simp only [hm, hp, if_false]
  exact unsignedNum_nan c t hI h0 hd hdot

theorem jsToNumber_head_nan (s : String) (c : Char) (t : List Char)
    (hs : s.data = c :: t) (hws : isWsChar c = false) (hm : c ≠ '-') (hp : c ≠ '+')
    (hI : c ≠ 'I') (h0 : c ≠ '0') (hd : c.isDigit = false) (hdot : c ≠ '.') :
    jsToNumber s = .nan := by
  rw [jsToNumber, hs, trimWs_cons c t hws]
  exact jsToNumberChars_nan c _ hm hp hI h0 hd hdot

theorem joinSep_cons_data (sep s : String) (rest : List String) :
    ∃ u, (joinSep sep (s :: rest)).data = s.data ++ u := by
  cases rest with
  | nil => exact ⟨[], by simp [joinSep]⟩
  | cons r rs =>
    exact ⟨sep.data ++ (joinSep sep (r :: rs)).data, by simp [joinSep, String.data_append]⟩

theorem jsGtNat_zero_false (k : Nat) : jsGtNat (jsToNumber "") k = false := by
  have : jsToNumber "" = .fin ⟨0, 0⟩ := rfl
  rw [this]
  simp [jsGtNat, decGtNat, tenPow]

open MySuperBaseElementSelector in
theorem entryGt_false (st : MySuperBaseElementSelector) (e : OrderEntry) (k : Nat)
    (hk : 2 ≤ k) (hok : entryOK e) (hcls : e ≠ .classRef)
    (hps : ∀ s ∈ st.builder.pseudoClass, ∃ t, s.data = ':' :: t) :
    entryGt st e k = false := by
  cases e with
  | num n =>
    rcases hok with h | h <;> subst h <;> simp [entryGt] <;> omega
  | str s =>
    rcases hok with ⟨t, ht⟩ | ⟨t, ht⟩
    · rw [entryGt, jsToNumber_head_nan s _ _ ht (by decide) (by decide) (by decide)
        (by decide) (by decide) (by decide) (by decide)]
      rfl
    · rw [entryGt, jsToNumber_head_nan s _ _ ht (by decide) (by decide) (by decide)
        (by decide) (by decide) (by decide) (by decide)]
      rfl
  | classRef => exact absurd rfl hcls
  | pseudoRef =>
    rw [entryGt]
    cases hl : st.builder.pseudoClass with
    | nil => simpa [joinSep] using jsGtNat_zero_false k
    | cons s rest =>
      obtain ⟨t, ht⟩ := hps s (by rw [hl]; exact List.mem_cons_self s rest)
      obtain ⟨u, hu⟩ := joinSep_cons_data "," s rest
      rw [jsToNumber_head_nan _ ':' (t ++ u) (by rw [hu, ht]; simp) (by decide) (by decide)
        (by decide) (by decide) (by decide) (by decide) (by decide)]
      rfl

open MySuperBaseElementSelector in
theorem firstGt_false (st : MySuperBaseElementSelector) (k : Nat) (hk : 2 ≤ k)
    (hInv : InvS st) (hcls : st.order.head? ≠ some OrderEntry.classRef) :
    firstGt st k = false := by
  rw [firstGt]
  cases ho : st.order with
  | nil => rfl
  | cons e rest =>
    refine entryGt_false st e k hk (hInv.1 e (by rw [ho]; exact List.mem_cons_self e rest))
      ?_ hInv.2.2
    intro he
    subst he
    exact hcls (by rw [ho]; rfl)

theorem inv_fresh : InvS {} := by
  refine ⟨?_, ?_, ?_⟩ <;> intro x hx <;> simp at hx

open MySuperBaseElementSelector in
theorem reachable_inv (st : MySuperBaseElementSelector) (h : Reachable st) : InvS st := by
  induction h with
  | fresh => exact inv_fresh
  | element v st1 st1' hr heq ih =>
    rw [MySuperBaseElementSelector.element] at heq
    split at heq
    · exact absurd heq (by simp)
    · split at heq
      · exact absurd heq (by simp)
      · obtain rfl := Except.ok.inj heq
        refine ⟨?_, ih.2.1, ih.2.2⟩
        intro e he
        rcases List.mem_append.mp he with he | he
        · exact ih.1 e he
        · simp at he; subst he; exact Or.inl rfl
  | id v st1 st1' hr heq ih =>
    rw [MySuperBaseElementSelector.id] at heq
    split at heq
    · exact absurd heq (by simp)
    · split at heq
      · exact absurd heq (by simp)
      · obtain rfl := Except.ok.inj heq
        refine ⟨?_, ih.2.1, ih.2.2⟩
        intro e he
        rcases List.mem_append.mp he with he | he
        · exact ih.1 e he
        · simp at he; subst he; exact Or.inr rfl
  | cls v st1 st1' hr heq ih =>
    rw [MySuperBaseElementSelector.«class»] at heq
    split at heq
    · exact absurd heq (by simp)
    · obtain rfl := Except.ok.inj heq
      refine ⟨?_, ?_, ih.2.2⟩
      · intro e he
        rcases List.mem_append.mp he with he | he
        · exact ih.1 e he
        · simp at he; subst he; trivial
      · intro s hs
        rcases List.mem_append.mp hs with hs | hs
        · exact ih.2.1 s hs
        · simp at hs; subst hs
          exact ⟨v.data, by simp [String.data_append]⟩
  | attr v st1 st1' hr heq ih =>
    rw [MySuperBaseElementSelector.attr] at heq
    split at heq
    · exact absurd heq (by simp)
    · obtain rfl := Except.ok.inj heq
      refine ⟨?_, ih.2.1, ih.2.2⟩
      intro e he
      rcases List.mem_append.mp he with he | he
      · exact ih.1 e he
      · simp at he; subst he
        exact Or.inl ⟨v.data ++ [']'], by simp [String.data_append]⟩
  | pseudoClass v st1 st1' hr heq ih =>
    rw [MySuperBaseElementSelector.pseudoClass] at heq
    split at heq
    · exact absurd heq (by simp)
    · obtain rfl := Except.ok.inj heq
      refine ⟨?_, ih.2.1, ?_⟩
      · intro e he
        rcases List.mem_append.mp he with he | he
        · exact ih.1 e he
        · simp at he; subst he; trivial
      · intro s hs
        rcases List.mem_append.mp hs with hs | hs
        · exact ih.2.2 s hs
        · simp at hs; subst hs
          exact ⟨v.data, by simp [String.data_append]⟩
  | pseudoElement v st1 st1' hr heq ih =>
    rw [MySuperBaseElementSelector.pseudoElement] at heq
    split at heq
    · exact absurd heq (by simp)
    · obtain rfl := Except.ok.inj heq
      refine ⟨?_, ih.2.1, ih.2.2⟩
      intro e he
      rcases List.mem_append.mp he with he | he
      · exact ih.1 e he
      · simp at he; subst he
        exact Or.inr ⟨':' :: v.data, by simp [String.data_append]⟩
  | combine st1 s1 comb s2 hr ih =>
    exact ⟨ih.1, ih.2.1, ih.2.2⟩

/-! ## Claims C1 and C2: the order gate as implemented -/

open MySuperBaseElementSelector in
/-- Claim C1 (amended): element raises the wrong-order error exactly when
its duplicate check passes (stored element name empty) and some part was
already added.  On every reachable builder whose first-pushed order entry is
not the class array reference, the id, class, attr and pseudoClass calls
never raise the wrong-order error: the first entry is the number 1 or 2
(below every threshold) or a decorated string or pseudo-class array whose
ToNumber value is NaN.  pseudoElement has no order check at all.  Only a
first-added class part can trip the gate, when its comma-joined decorated
list coerces to a number above the threshold, as class 9e9 then attr
shows. -/
theorem claim_C1_amended :
    ∀ st : MySuperBaseElementSelector, Reachable st →
      (∀ v, MySuperBaseElementSelector.element v st = .error "Wrong order" ↔
         (st.builder.element = "" ∧ st.order ≠ [])) ∧
      (st.order.head? ≠ some OrderEntry.classRef →
         ∀ v, MySuperBaseElementSelector.id v st ≠ .error "Wrong order" ∧
              MySuperBaseElementSelector.«class» v st ≠ .error "Wrong order" ∧
              MySuperBaseElementSelector.attr v st ≠ .error "Wrong order" ∧
              MySuperBaseElementSelector.pseudoClass v st ≠ .error "Wrong order") ∧
      (∀ v, MySuperBaseElementSelector.pseudoElement v st ≠ .error "Wrong order") ∧
      ((cssSelectorBuilder.«class» "9e9").bind (MySuperBaseElementSelector.attr "x") =
         .error "Wrong order") := by
  intro st hr
  have hInv := reachable_inv st hr
  refine ⟨?_, ?_, ?_, by rfl⟩
  · intro v
    by_cases he : st.builder.element = ""
    · rw [MySuperBaseElementSelector.element]
      cases ho : st.order with
      | nil => simp [he]
      | cons e rest => simp [he, ho]
    · rw [MySuperBaseElementSelector.element]
      simp only [he, ne_eq, not_false_eq_true, if_true]
      constructor
      · intro hh
        exact absurd (Except.error.inj hh) (by decide)
      · intro hh
        exact hh.1.elim
  · intro hcls v
    have h2 := firstGt_false st 2 (by omega) hInv hcls
    have h3 := firstGt_false st 3 (by omega) hInv hcls
    have h4 := firstGt_false st 4 (by omega) hInv hcls
    have h5 := firstGt_false st 5 (by omega) hInv hcls
    refine ⟨?_, ?_, ?_, ?_⟩
    · rw [MySuperBaseElementSelector.id]
      by_cases hid : st.builder.id = ""
      · simp [hid, h2]
      · simp only [hid, ne_eq, not_false_eq_true, if_true]
        intro hh
        exact absurd (Except.error.inj hh) (by decide)
    · rw [MySuperBaseElementSelector.«class»]
      simp [h3]
    · rw [MySuperBaseElementSelector.attr]
      simp [h4]
    · rw [MySuperBaseElementSelector.pseudoClass]
      simp [h5]
  · intro v
    rw [MySuperBaseElementSelector.pseudoElement]
    by_cases hpe : st.builder.pseudoElement = ""
    · simp [hpe]
    · simp only [hpe, ne_eq, not_false_eq_true, if_true]
      intro hh
      exact absurd (Except.error.inj hh) (by decide)

theorem claim_C1_witness :
    MySuperBaseElementSelector.id "main" ⟨⟨"", "", [], "", [], "::before", []⟩,
        [.str "::before"]⟩ ≠ .error "Wrong order" ∧
    MySuperBaseElementSelector.element "div" ⟨⟨"", "", [], "", [], "::before", []⟩,
        [.str "::before"]⟩ = .error "Wrong order" := by
  have hr : Reachable ⟨⟨"", "", [], "", [], "::before", []⟩, [.str "::before"]⟩ :=
    Reachable.pseudoElement "before" {} _ Reachable.fresh rfl
  have h := claim_C1_amended _ hr
  exact ⟨(h.2.1 (by decide) "main").1, (h.1 "div").2 ⟨rfl, by decide⟩⟩

/-- Claim C2 (amended): what survives of rank monotonicity is that an
element part can only ever be added as the very first part: a successful
element call forces the order array to have been empty, and afterwards it
holds exactly the element entry. -/
theorem claim_C2_amended :
    ∀ (st st' : MySuperBaseElementSelector) (v : String),
      MySuperBaseElementSelector.element v st = .ok st' →
      st.order = [] ∧ st'.order = [OrderEntry.num 1] := by
  intro st st' v h
  rw [MySuperBaseElementSelector.element] at h
  split at h
  · exact absurd h (by simp)
  · split at h
    · exact absurd h (by simp)
    · next hlen =>
      obtain rfl := Except.ok.inj h
      have : st.order = [] := by
        simpa using hlen
      exact ⟨this, by simp [this]⟩

theorem claim_C2_witness :
    ({} : MySuperBaseElementSelector).order = [] ∧
    (⟨⟨"div", "", [], "", [], "", []⟩, [.num 1]⟩ : MySuperBaseElementSelector).order =
      [OrderEntry.num 1] :=
  claim_C2_amended {} ⟨⟨"div", "", [], "", [], "", []⟩, [.num 1]⟩ "div" rfl

/-! ## Number and string literal round trips for the JSON codec -/

theorem digitChar_isDigit (d : ℕ) (h : d < 10) : (Char.ofNat (48 + d)).isDigit = true := by
  interval_cases d <;> decide

theorem digitChar_toNat (d : ℕ) (h : d < 10) : (Char.ofNat (48 + d)).toNat = 48 + d := by
  interval_cases d <;> decide

theorem horner_fold (ds : List ℕ) : ∀ a : ℕ,
    List.foldl (fun x d => x * 10 + d) a ds = Nat.ofDigits 10 ds.reverse + a * 10 ^ ds.length := by
  induction ds with
  | nil => intro a; simp [Nat.ofDigits]
  | cons d ds ih =>
    intro a
    simp only [List.foldl_cons, ih, List.reverse_cons, Nat.ofDigits_append, List.length_reverse,
      List.length_cons, Nat.ofDigits_cons, Nat.ofDigits_nil]
    ring

theorem natChars_digits (n : ℕ) : ∀ c ∈ natChars n, c.isDigit = true := by
  unfold natChars
  split
  · intro c hc; simp at hc; subst hc; decide
  · intro c hc
    simp only [List.mem_reverse, List.mem_map] at hc
    obtain ⟨d, hd, rfl⟩ := hc
    exact digitChar_isDigit d (Nat.digits_lt_base (by norm_num) hd)

theorem natChars_ne_nil (n : ℕ) : natChars n ≠ [] := by
  unfold natChars
  split
  · simp
  · next h =>
    simp only [ne_eq, List.reverse_eq_nil_iff, List.map_eq_nil_iff]
    exact Nat.digits_ne_nil_iff_ne_zero.mpr h

theorem digitsToNat_natChars (n : ℕ) : digitsToNat (natChars n) = n := by
  unfold natChars digitsToNat
  split
  · next h => subst h; decide
  · next h =>
    rw [← List.map_reverse, List.foldl_map]
    have hall : ∀ d ∈ (Nat.digits 10 n).reverse, d < 10 := fun d hd =>
      Nat.digits_lt_base (by norm_num) (List.mem_reverse.mp hd)
    rw [List.foldl_ext (fun (x : ℕ) (d : ℕ) => x * 10 + ((Char.ofNat (48 + d)).toNat - 48))
      (fun x d => x * 10 + d) 0 (fun a b hb => by simp only []; rw [digitChar_toNat b (hall b hb)]; omega)]
    rw [horner_fold, List.reverse_reverse, Nat.ofDigits_digits]
    simp


theorem takeWhile_all_append (p : Char → Bool) (l rest : List Char)
    (hl : ∀ c ∈ l, p c = true) (hr : ∀ c, rest.head? = some c → p c = false) :
    (l ++ rest).takeWhile p = l ∧ (l ++ rest).dropWhile p = rest := by
  induction l with
  | nil =>
    simp only [List.nil_append]
    cases rest with
    | nil => simp
    | cons c r => simp [List.takeWhile_cons, List.dropWhile_cons, hr c rfl]
  | cons a l ih =>
    have ha := hl a (List.mem_cons_self a l)
    have ih2 := ih fun c hc => hl c (List.mem_cons_of_mem a hc)
    simp [List.takeWhile_cons, List.dropWhile_cons, ha, ih2.1, ih2.2]

theorem parseNatLit_emit (n : Nat) (rest : List Char)
    (hr : ∀ c, rest.head? = some c → c.isDigit = false) :
    parseNatLit (natChars n ++ rest) = some (n, rest) := by
  obtain ⟨ht, hd⟩ := takeWhile_all_append Char.isDigit (natChars n) rest (natChars_digits n) hr
  rw [parseNatLit]
  simp only [ht, hd, List.isEmpty_iff, digitsToNat_natChars]
  rw [if_neg (natChars_ne_nil n)]

theorem intChars_head_not_minus (n : Nat) : ∀ r, natChars n = '-' :: r → False := by
  intro r hr
  have := natChars_digits n '-' (by rw [hr]; exact List.mem_cons_self _ _)
  simp at this

theorem parseIntLit_emit (n : Int) (rest : List Char)
    (hr : ∀ c, rest.head? = some c → c.isDigit = false) :
    parseIntLit (intChars n ++ rest) = some (n, rest) := by
  obtain ⟨c0, t0, hct⟩ : ∃ c0 t0, natChars n.natAbs = c0 :: t0 := by
    cases hnc : natChars n.natAbs with
    | nil => exact absurd hnc (natChars_ne_nil _)
    | cons c0 t0 => exact ⟨c0, t0, rfl⟩
  have hc0 : c0.isDigit = true := natChars_digits n.natAbs c0 (by rw [hct]; exact List.mem_cons_self _ _)
  have hc0m : c0 ≠ '-' := by
    intro he; rw [he] at hc0; simp at hc0
  rw [intChars]
  by_cases hn : n < 0
  · rw [if_pos hn, parseIntLit]
    simp only [List.cons_append, List.head?_cons, List.tail_cons, if_pos rfl]
    rw [parseNatLit_emit n.natAbs rest hr,
      show Option.map (fun p => (-(p.1 : Int), p.2)) (some (n.natAbs, rest)) =
        some (-(n.natAbs : Int), rest) from rfl,
      show (-(n.natAbs : Int)) = n by omega]
    simp
  · rw [if_neg hn, parseIntLit, hct]
    simp only [List.cons_append, List.head?_cons]
    rw [if_neg (by simpa using hc0m), ← List.cons_append, ← hct,
      parseNatLit_emit n.natAbs rest hr,
      show Option.map (fun p => ((p.1 : Int), p.2)) (some (n.natAbs, rest)) =
        some ((n.natAbs : Int), rest) from rfl,
      show ((n.natAbs : Int)) = n by omega]

theorem hexDigitVal_hexDigitChar (m : Nat) (h : m < 16) :
    hexDigitVal (hexDigitChar m) = some m := by
  interval_cases m <;> decide

example (X : List Char) :
    parseStrBody ('\\' :: '"' :: X) =
      (parseStrBody X).map fun p => ('"' :: p.1, p.2) := rfl

theorem parseStrBody_plain (X : List Char) (c : Char) (h1 : c ≠ '"') (h2 : c ≠ '\\') :
    parseStrBody (c :: X) = (parseStrBody X).map fun p => (c :: p.1, p.2) := by
  rw [parseStrBody.eq_def]
  split
  · next heq => exact absurd heq (by simp)
  · next heq => exact absurd (List.cons.inj heq).1 h1
  · next heq => exact absurd (List.cons.inj heq).1 h2
  · next heq => exact absurd (List.cons.inj heq).1 h2
  · next heq =>
    obtain ⟨e1, e2⟩ := List.cons.inj heq
    rw [← e1, ← e2]

theorem hexQuad_emit (t : Nat) (h : t < 32) :
    hexQuad '0' '0' (hexDigitChar (t / 16)) (hexDigitChar (t % 16)) = some t := by
  rw [hexQuad, show hexDigitVal '0' = some 0 from rfl,
    hexDigitVal_hexDigitChar (t / 16) (by omega), hexDigitVal_hexDigitChar (t % 16) (by omega)]
  show some ((((0 * 16 + 0) * 16 + t / 16) * 16 + t % 16)) = some t
  congr 1
  omega

theorem parseStrBody_emit (s : List Char) : ∀ rest : List Char,
    parseStrBody (escBody s ++ '"' :: rest) = some (s, rest) := by
  induction s with
  | nil => intro rest; rfl
  | cons c cs ih =>
    intro rest
    rw [escBody, List.append_assoc]
    by_cases h1 : c = '"'
    · subst h1
      rw [show escChar '"' = ['\\', '"'] from rfl]
      simp only [List.cons_append, List.nil_append]
      rw [show parseStrBody ('\\' :: '"' :: (escBody cs ++ '"' :: rest)) =
        (parseStrBody (escBody cs ++ '"' :: rest)).map fun p => ('"' :: p.1, p.2) from rfl]
      rw [ih rest]; rfl
    by_cases h2 : c = '\\'
    · subst h2
      rw [show escChar '\\' = ['\\', '\\'] from rfl]
      simp only [List.cons_append, List.nil_append]
      rw [show parseStrBody ('\\' :: '\\' :: (escBody cs ++ '"' :: rest)) =
        (parseStrBody (escBody cs ++ '"' :: rest)).map fun p => ('\\' :: p.1, p.2) from rfl]
      rw [ih rest]; rfl
    by_cases h3 : c = '\x08'
    · subst h3
      rw [show escChar '\x08' = ['\\', 'b'] from rfl]
      simp only [List.cons_append, List.nil_append]
      rw [show parseStrBody ('\\' :: 'b' :: (escBody cs ++ '"' :: rest)) =
        (parseStrBody (escBody cs ++ '"' :: rest)).map fun p => ('\x08' :: p.1, p.2) from rfl]
      rw [ih rest]; rfl
    by_cases h4 : c = '\t'
    · subst h4
      rw [show escChar '\t' = ['\\', 't'] from rfl]
      simp only [List.cons_append, List.nil_append]
      rw [show parseStrBody ('\\' :: 't' :: (escBody cs ++ '"' :: rest)) =
        (parseStrBody (escBody cs ++ '"' :: rest)).map fun p => ('\t' :: p.1, p.2) from rfl]
      rw [ih rest]; rfl
    by_cases h5 : c = '\n'
    · subst h5
      rw [show escChar '\n' = ['\\', 'n'] from rfl]
      simp only [List.cons_append, List.nil_append]
      rw [show parseStrBody ('\\' :: 'n' :: (escBody cs ++ '"' :: rest)) =
        (parseStrBody (escBody cs ++ '"' :: rest)).map fun p => ('\n' :: p.1, p.2) from rfl]
      rw [ih rest]; rfl
    by_cases h6 : c = '\x0c'
    · subst h6
      rw [show escChar '\x0c' = ['\\', 'f'] from rfl]
      simp only [List.cons_append, List.nil_append]
      rw [show parseStrBody ('\\' :: 'f' :: (escBody cs ++ '"' :: rest)) =
        (parseStrBody (escBody cs ++ '"' :: rest)).map fun p => ('\x0c' :: p.1, p.2) from rfl]
      rw [ih rest]; rfl
    by_cases h7 : c = '\r'
    · subst h7
      rw [show escChar '\r' = ['\\', 'r'] from rfl]
      simp only [List.cons_append, List.nil_append]
      rw [show parseStrBody ('\\' :: 'r' :: (escBody cs ++ '"' :: rest)) =
        (parseStrBody (escBody cs ++ '"' :: rest)).map fun p => ('\r' :: p.1, p.2) from rfl]
      rw [ih rest]; rfl
    by_cases h8 : c.toNat < 32
    · rw [show escChar c = ['\\', 'u', '0', '0', hexDigitChar (c.toNat / 16),
          hexDigitChar (c.toNat % 16)] from by
        rw [escChar]; simp only [h1, h2, h3, h4, h5, h6, h7, if_false, h8, if_true]]
      simp only [List.cons_append, List.nil_append]
      rw [show parseStrBody ('\\' :: 'u' :: '0' :: '0' :: hexDigitChar (c.toNat / 16) ::
          hexDigitChar (c.toNat % 16) :: (escBody cs ++ '"' :: rest)) =
        (match hexQuad '0' '0' (hexDigitChar (c.toNat / 16)) (hexDigitChar (c.toNat % 16)) with
         | some n => (parseStrBody (escBody cs ++ '"' :: rest)).map
             fun p => (Char.ofNat n :: p.1, p.2)
         | none => none) from rfl]
      rw [hexQuad_emit c.toNat h8, ih rest]
      simp [Char.ofNat_toNat]
    · rw [show escChar c = [c] from by
        rw [escChar]; simp only [h1, h2, h3, h4, h5, h6, h7, h8, if_false]]
      rw [show ([c] : List Char) ++ (escBody cs ++ '"' :: rest) =
        c :: (escBody cs ++ '"' :: rest) from rfl]
      rw [parseStrBody_plain _ c h1 h2, ih rest]
      rfl

/-! ## Claim C7: the JSON round trip -/

theorem dropLit_emit (pre rest : List Char) : dropLit pre (pre ++ rest) = some rest := by
  induction pre with
  | nil => rfl
  | cons p ps ih => simp [dropLit, ih]

theorem wsDrop_cons (c : Char) (l : List Char) (h : jsonWs c = false) :
    wsDrop (c :: l) = c :: l := by
  simp [wsDrop, List.dropWhile_cons, h]

theorem digit_not_special (c : Char) (h : c.isDigit = true) :
    c ≠ 'n' ∧ c ≠ 't' ∧ c ≠ 'f' ∧ c ≠ '"' ∧ c ≠ '[' ∧ c ≠ '\x7b' ∧ jsonWs c = false ∧
      c ≠ ']' ∧ c ≠ '\x7d' ∧ c ≠ ',' ∧ c ≠ ':' ∧ c ≠ '-' := by
  refine ⟨?_, ?_, ?_, ?_, ?_, ?_, ?_, ?_, ?_, ?_, ?_, ?_⟩
  all_goals first
  | (intro he; subst he; exact absurd h (by decide))
  | (cases hw : jsonWs c
     · rfl
     · exfalso
       simp only [jsonWs, Bool.or_eq_true, decide_eq_true_eq] at hw
       rcases hw with ((rfl | rfl) | rfl) | rfl <;> exact absurd h (by decide))

theorem headKey_facts (c : Char)
    (h : c = 'n' ∨ c = 't' ∨ c = 'f' ∨ c = '"' ∨ c = '[' ∨ c = '\x7b' ∨ c = '-' ∨
      c.isDigit = true) :
    jsonWs c = false ∧ c ≠ ']' ∧ c ≠ '\x7d' ∧ c.isDigit = false ∨
    (c = '-' ∨ c.isDigit = true) ∧ jsonWs c = false ∧ c ≠ ']' ∧ c ≠ '\x7d' := by
  rcases h with rfl | rfl | rfl | rfl | rfl | rfl | rfl | h
  · exact Or.inl (by refine ⟨by decide, by decide, by decide, by decide⟩)
  · exact Or.inl (by refine ⟨by decide, by decide, by decide, by decide⟩)
  · exact Or.inl (by refine ⟨by decide, by decide, by decide, by decide⟩)
  · exact Or.inl (by refine ⟨by decide, by decide, by decide, by decide⟩)
  · exact Or.inl (by refine ⟨by decide, by decide, by decide, by decide⟩)
  · exact Or.inl (by refine ⟨by decide, by decide, by decide, by decide⟩)
  · exact Or.inr ⟨Or.inl rfl, by decide, by decide, by decide⟩
  · obtain ⟨_, _, _, _, _, _, hws, hrb, hcb, _, _, _⟩ := digit_not_special c h
    exact Or.inr ⟨Or.inr h, hws, hrb, hcb⟩

theorem jsonChars_head (v : JVal) :
    ∃ c t, jsonChars v = c :: t ∧
      (c = 'n' ∨ c = 't' ∨ c = 'f' ∨ c = '"' ∨ c = '[' ∨ c = '\x7b' ∨ c = '-' ∨
        c.isDigit = true) := by
  cases v with
  | jnull => exact ⟨'n', _, rfl, by tauto⟩
  | jbool b =>
    cases b with
    | false => exact ⟨'f', _, rfl, by tauto⟩
    | true => exact ⟨'t', _, rfl, by tauto⟩
  | jnum n =>
    obtain ⟨c0, t0, hct⟩ : ∃ c0 t0, natChars n.natAbs = c0 :: t0 := by
      cases hnc : natChars n.natAbs with
      | nil => exact absurd hnc (natChars_ne_nil _)
      | cons c0 t0 => exact ⟨c0, t0, rfl⟩
    have hd : c0.isDigit = true :=
      natChars_digits n.natAbs c0 (by rw [hct]; exact List.mem_cons_self _ _)
    by_cases hn : n < 0
    · exact ⟨'-', natChars n.natAbs, by simp [jsonChars, intChars, hn], by tauto⟩
    · exact ⟨c0, t0, by simp [jsonChars, intChars, hn, hct], by tauto⟩
  | jstr s => exact ⟨'"', _, rfl, by tauto⟩
  | jarr items => exact ⟨'[', _, rfl, by tauto⟩
  | jobj pairs => exact ⟨'\x7b', _, rfl, by tauto⟩

theorem jweight_pos (v : JVal) : 1 ≤ jweight v := by
  cases v <;> simp [jweight]

mutual

theorem jweight_le (v : JVal) : jweight v ≤ (jsonChars v).length := by
  cases v with
  | jnull => simp [jweight, jsonChars]
  | jbool b => cases b <;> simp [jweight, jsonChars]
  | jnum n =>
    have h1 : 1 ≤ (natChars n.natAbs).length :=
      List.length_pos.mpr (natChars_ne_nil n.natAbs)
    simp only [jweight, jsonChars, intChars]
    split <;> simp <;> omega
  | jstr s => simp [jweight, jsonChars, strChars]
  | jarr items =>
    have h := itemsWeight_le items
    simp only [jweight, jsonChars, List.length_cons, List.length_append, List.length_cons,
      List.length_nil]
    omega
  | jobj pairs =>
    have h := pairsWeight_le pairs
    simp only [jweight, jsonChars, List.length_cons, List.length_append, List.length_nil]
    omega

theorem itemsWeight_le (items : List JVal) :
    itemsWeight items ≤ (itemsChars items).length + 1 := by
  cases items with
  | nil => simp [itemsWeight, itemsChars]
  | cons v rest =>
    cases rest with
    | nil =>
      have h := jweight_le v
      simp only [itemsWeight, itemsChars]
      omega
    | cons r rs =>
      have h1 := jweight_le v
      have h2 := itemsWeight_le (r :: rs)
      simp only [itemsWeight] at h2
      simp only [itemsWeight, itemsChars, List.length_append, List.length_cons]
      omega

theorem pairsWeight_le (pairs : List (String × JVal)) :
    pairsWeight pairs ≤ (pairsChars pairs).length + 1 := by
  cases pairs with
  | nil => simp [pairsWeight, pairsChars]
  | cons p rest =>
    obtain ⟨k, v⟩ := p
    cases rest with
    | nil =>
      have h := jweight_le v
      simp only [pairsWeight, pairsChars, List.length_append, List.length_cons]
      omega
    | cons q qs =>
      have h1 := jweight_le v
      have h2 := pairsWeight_le (q :: qs)
      simp only [pairsWeight] at h2
      simp only [pairsWeight, pairsChars, List.length_append, List.length_cons]
      omega

end

theorem intChars_head (n : Int) :
    ∃ c0 t0, intChars n = c0 :: t0 ∧ (c0 = '-' ∨ c0.isDigit = true) := by
  obtain ⟨c0, t0, hct⟩ : ∃ c0 t0, natChars n.natAbs = c0 :: t0 := by
    cases hnc : natChars n.natAbs with
    | nil => exact absurd hnc (natChars_ne_nil _)
    | cons c0 t0 => exact ⟨c0, t0, rfl⟩
  have hd : c0.isDigit = true :=
    natChars_digits n.natAbs c0 (by rw [hct]; exact List.mem_cons_self _ _)
  by_cases hn : n < 0
  · exact ⟨'-', natChars n.natAbs, by simp [intChars, hn], Or.inl rfl⟩
  · exact ⟨c0, t0, by simp [intChars, hn, hct], Or.inr hd⟩

theorem itemsChars_cons (x : JVal) (xs : List JVal) :
    ∃ u, itemsChars (x :: xs) = jsonChars x ++ u := by
  cases xs with
  | nil => exact ⟨[], by simp [itemsChars]⟩
  | cons y ys => exact ⟨',' :: itemsChars (y :: ys), by simp [itemsChars]⟩

theorem pairsChars_shape (k : String) (v : JVal) (ps : List (String × JVal))
    (rest : List Char) :
    pairsChars ((k, v) :: ps) ++ '\x7d' :: rest =
      '"' :: (escBody k.data ++ '"' :: (':' :: (jsonChars v ++ pairsTail ps rest))) := by
  cases ps with
  | nil => simp [pairsChars, strChars, pairsTail, List.append_assoc]
  | cons q qs => simp [pairsChars, strChars, pairsTail, List.append_assoc]

mutual

theorem parseVal_emit (v : JVal) : ∀ (f : Nat) (rest : List Char), jweight v ≤ f →
    (∀ c, rest.head? = some c → c.isDigit = false) →
    parseVal f (jsonChars v ++ rest) = some (v, rest) := by
  cases v with
  | jnull =>
    intro f rest hf _
    obtain ⟨g, rfl⟩ : ∃ g, f = g + 1 := ⟨f - 1, by simp [jweight] at hf; omega⟩
    simp only [jsonChars, List.cons_append, List.nil_append]
    rw [parseVal, wsDrop_cons _ _ (by decide), parseValCore]
    simp +decide [dropLit]
  | jbool b =>
    intro f rest hf _
    obtain ⟨g, rfl⟩ : ∃ g, f = g + 1 := ⟨f - 1, by simp [jweight] at hf; omega⟩
    cases b with
    | true =>
      simp only [jsonChars, List.cons_append, List.nil_append]
      rw [parseVal, wsDrop_cons _ _ (by decide), parseValCore]
      simp +decide [dropLit]
    | false =>
      simp only [jsonChars, List.cons_append, List.nil_append]
      rw [parseVal, wsDrop_cons _ _ (by decide), parseValCore]
      simp +decide [dropLit]
  | jnum n =>
    intro f rest hf hrest
    obtain ⟨g, rfl⟩ : ∃ g, f = g + 1 := ⟨f - 1, by simp [jweight] at hf; omega⟩
    obtain ⟨c0, t0, hct, hkey⟩ := intChars_head n
    have hfacts : c0 ≠ 'n' ∧ c0 ≠ 't' ∧ c0 ≠ 'f' ∧ c0 ≠ '"' ∧ c0 ≠ '[' ∧ c0 ≠ '\x7b' ∧
        jsonWs c0 = false := by
      rcases hkey with rfl | hd
      · exact ⟨by decide, by decide, by decide, by decide, by decide, by decide, by decide⟩
      · obtain ⟨a1, a2, a3, a4, a5, a6, a7, _⟩ := digit_not_special c0 hd
        exact ⟨a1, a2, a3, a4, a5, a6, a7⟩
    simp only [jsonChars]
    rw [hct, List.cons_append, parseVal, wsDrop_cons _ _ hfacts.2.2.2.2.2.2, parseValCore]
    rw [if_neg hfacts.1, if_neg hfacts.2.1, if_neg hfacts.2.2.1, if_neg hfacts.2.2.2.1,
      if_neg hfacts.2.2.2.2.1, if_neg hfacts.2.2.2.2.2.1,
      if_pos (by rcases hkey with rfl | hd <;> simp [*])]
    rw [← List.cons_append, ← hct, parseIntLit_emit n rest hrest]
    rfl
  | jstr s =>
    intro f rest hf _
    obtain ⟨g, rfl⟩ : ∃ g, f = g + 1 := ⟨f - 1, by simp [jweight] at hf; omega⟩
    simp only [jsonChars, strChars, List.cons_append, List.append_assoc,
      List.singleton_append, List.nil_append]
    rw [parseVal, wsDrop_cons _ _ (by decide), parseValCore]
    rw [if_neg (by decide : ¬('"' : Char) = 'n'), if_neg (by decide : ¬('"' : Char) = 't'),
      if_neg (by decide : ¬('"' : Char) = 'f'), if_pos rfl]
    rw [parseStrBody_emit s.data rest]
    rfl
  | jarr items =>
    intro f rest hf hrest
    obtain ⟨g, rfl⟩ : ∃ g, f = g + 1 := ⟨f - 1, by simp [jweight] at hf; omega⟩
    cases items with
    | nil =>
      simp only [jsonChars, itemsChars, List.cons_append, List.nil_append]
      rw [parseVal, wsDrop_cons _ _ (by decide), parseValCore]
      simp +decide [wsDrop_cons (']' : Char) rest (by decide)]
    | cons x xs =>
      obtain ⟨u, hu⟩ := itemsChars_cons x xs
      obtain ⟨c0, t0, hct, hkey⟩ := jsonChars_head x
      have hws : jsonWs c0 = false := by
        rcases hkey with rfl | rfl | rfl | rfl | rfl | rfl | rfl | hd
        · decide
        · decide
        · decide
        · decide
        · decide
        · decide
        · decide
        · exact (digit_not_special c0 hd).2.2.2.2.2.2.1
      have hrb : c0 ≠ ']' := by
        rcases hkey with rfl | rfl | rfl | rfl | rfl | rfl | rfl | hd
        · decide
        · decide
        · decide
        · decide
        · decide
        · decide
        · decide
        · exact (digit_not_special c0 hd).2.2.2.2.2.2.2.1
      simp only [jsonChars, List.cons_append, List.append_assoc, List.singleton_append,
        List.nil_append]
      rw [parseVal, wsDrop_cons _ _ (by decide), parseValCore]
      rw [if_neg (by decide : ¬('[' : Char) = 'n'), if_neg (by decide : ¬('[' : Char) = 't'),
        if_neg (by decide : ¬('[' : Char) = 'f'), if_neg (by decide : ¬('[' : Char) = '"'),
        if_pos rfl]
      have hshape : itemsChars (x :: xs) ++ ']' :: rest = c0 :: (t0 ++ (u ++ ']' :: rest)) := by
        rw [hu, hct]; simp [List.append_assoc]
      rw [hshape, wsDrop_cons _ _ hws]
      rw [if_neg (by simp [hrb])]
      rw [← hshape, parseItems_emit (x :: xs) (by simp) g rest
        (by simp only [jweight] at hf; omega)]
      rfl
  | jobj pairs =>
    intro f rest hf hrest
    obtain ⟨g, rfl⟩ : ∃ g, f = g + 1 := ⟨f - 1, by simp [jweight] at hf; omega⟩
    cases pairs with
    | nil =>
      simp only [jsonChars, pairsChars, List.cons_append, List.nil_append]
      rw [parseVal, wsDrop_cons _ _ (by decide), parseValCore]
      simp +decide [wsDrop_cons ('\x7d' : Char) rest (by decide)]
    | cons p ps =>
      obtain ⟨k, v⟩ := p
      simp only [jsonChars, List.cons_append, List.append_assoc, List.singleton_append,
        List.nil_append]
      rw [parseVal, wsDrop_cons _ _ (by decide), parseValCore]
      rw [if_neg (by decide : ¬('\x7b' : Char) = 'n'),
        if_neg (by decide : ¬('\x7b' : Char) = 't'),
        if_neg (by decide : ¬('\x7b' : Char) = 'f'),
        if_neg (by decide : ¬('\x7b' : Char) = '"'),
        if_neg (by decide : ¬('\x7b' : Char) = '['), if_pos rfl]
      rw [pairsChars_shape k v ps rest, wsDrop_cons _ _ (by decide)]
      rw [if_neg (by simp)]
      rw [← pairsChars_shape k v ps rest, parsePairs_emit ((k, v) :: ps) (by simp) g rest
        (by simp only [jweight] at hf; omega)]
      rfl

theorem parseItems_emit (items : List JVal) (hne : items ≠ []) :
    ∀ (f : Nat) (rest : List Char), itemsWeight items ≤ f →
    parseItems f (itemsChars items ++ ']' :: rest) = some (items, rest) := by
  cases items with
  | nil => exact absurd rfl hne
  | cons x xs =>
    intro f rest hw
    obtain ⟨g, rfl⟩ : ∃ g, f = g + 1 := ⟨f - 1, by simp [itemsWeight] at hw; omega⟩
    rw [parseItems]
    cases xs with
    | nil =>
      simp only [itemsChars]
      rw [parseVal_emit x g (']' :: rest) (by simp [itemsWeight] at hw; omega)
        (by intro c hc; simp at hc; subst hc; decide)]
      simp only [Option.some_bind]
      rw [wsDrop_cons _ _ (by decide)]
      simp +decide
    | cons y ys =>
      have hsh : itemsChars (x :: y :: ys) ++ ']' :: rest =
          jsonChars x ++ (',' :: (itemsChars (y :: ys) ++ ']' :: rest)) := by
        simp [itemsChars, List.append_assoc]
      rw [hsh]
      rw [parseVal_emit x g _ (by simp only [itemsWeight] at hw ⊢; omega)
        (by intro c hc; simp at hc; subst hc; decide)]
      simp only [Option.some_bind]
      rw [wsDrop_cons _ _ (by decide)]
      rw [if_pos (show (',' :: (itemsChars (y :: ys) ++ ']' :: rest)).head? = some ','
        from rfl)]
      simp only [List.tail_cons]
      rw [parseItems_emit (y :: ys) (by simp) g rest
        (by simp only [itemsWeight] at hw ⊢; omega)]
      rfl

theorem parsePairs_emit (pairs : List (String × JVal)) (hne : pairs ≠ []) :
    ∀ (f : Nat) (rest : List Char), pairsWeight pairs ≤ f →
    parsePairs f (pairsChars pairs ++ '\x7d' :: rest) = some (pairs, rest) := by
  cases pairs with
  | nil => exact absurd rfl hne
  | cons p ps =>
    obtain ⟨k, v⟩ := p
    intro f rest hw
    obtain ⟨g, rfl⟩ : ∃ g, f = g + 1 := ⟨f - 1, by simp [pairsWeight] at hw; omega⟩
    rw [parsePairs, pairsChars_shape k v ps rest, wsDrop_cons _ _ (by decide)]
    rw [if_pos (show ('"' :: (escBody k.data ++ '"' :: (':' :: (jsonChars v ++
      pairsTail ps rest)))).head? = some '"' from rfl)]
    simp only [List.tail_cons]
    rw [parseStrBody_emit k.data (':' :: (jsonChars v ++ pairsTail ps rest))]
    simp only [Option.some_bind]
    rw [wsDrop_cons _ _ (by decide),
      if_pos (show ((':' : Char) :: (jsonChars v ++ pairsTail ps rest)).head? = some ':'
        from rfl)]
    simp only [List.tail_cons]
    cases ps with
    | nil =>
      simp only [pairsTail]
      rw [parseVal_emit v g ('\x7d' :: rest) (by simp only [pairsWeight] at hw; omega)
        (by intro c hc; simp at hc; subst hc; decide)]
      simp only [Option.some_bind]
      rw [wsDrop_cons _ _ (by decide)]
      rw [if_neg (by simp),
        if_pos (show (('\x7d' : Char) :: rest).head? = some '\x7d' from rfl)]
      rfl
    | cons q qs =>
      simp only [pairsTail]
      rw [parseVal_emit v g (',' :: (pairsChars (q :: qs) ++ '\x7d' :: rest))
        (by simp only [pairsWeight] at hw; omega)
        (by intro c hc; simp at hc; subst hc; decide)]
      simp only [Option.some_bind]
      rw [wsDrop_cons _ _ (by decide),
        if_pos (show ((',' : Char) :: (pairsChars (q :: qs) ++ '\x7d' :: rest)).head? =
          some ',' from rfl)]
      simp only [List.tail_cons]
      rw [parsePairs_emit (q :: qs) (by simp) g rest
        (by simp only [pairsWeight] at hw ⊢; omega)]
      rfl

end

theorem jsonParse_stringify (v : JVal) : jsonParse (jsonStringify v) = some v := by
  have h := parseVal_emit v ((jsonChars v).length + 1) []
    (by have := jweight_le v; omega) (by intro c hc; simp at hc)
  rw [List.append_nil] at h
  rw [jsonParse, jsonStringify,
    show (String.mk (jsonChars v)).data = jsonChars v from rfl,
    show (String.mk (jsonChars v)).length = (jsonChars v).length from rfl, h]
  rfl

/-- Claim C7 (confirmed): for every plain data object (a list of JSON
properties, numbers modelled as exact integers), parsing the serialized
text back and installing the prototype yields an object with exactly the
original own properties and the given delegation target, and property
lookups that miss the own properties resolve through the prototype. -/
theorem claim_C7 :
    ∀ (proto pairs : List (String × JVal)),
      fromJSON proto (getJSON (JVal.jobj pairs)) = some ⟨pairs, proto⟩ ∧
      ∀ k : String, List.lookup k pairs = none →
        getProp ⟨pairs, proto⟩ k = List.lookup k proto := by
  intro proto pairs
  constructor
  · rw [fromJSON, getJSON, jsonParse_stringify]
    rfl
  · intro k hk
    rw [getProp]
    simp only [hk]

theorem claim_C7_witness :
    fromJSON [("area", JVal.jnum 200)]
        (getJSON (JVal.jobj [("height", JVal.jnum 10), ("width", JVal.jnum 20)])) =
      some ⟨[("height", JVal.jnum 10), ("width", JVal.jnum 20)], [("area", JVal.jnum 200)]⟩ ∧
    getProp ⟨[("height", JVal.jnum 10), ("width", JVal.jnum 20)], [("area", JVal.jnum 200)]⟩
        "area" = List.lookup "area" [("area", JVal.jnum 200)] :=
  ⟨(claim_C7 _ _).1, (claim_C7 _ _).2 "area" rfl⟩
